import Mathlib

/-!
# Verification of the borehole2D drawing pipeline

Shallow embedding of `src/geotechnics/drawings/borehole2D/borehole2D.py`.
Python scalar cell values are modelled by `PyVal`; numbers are embedded as
exact rationals (`ℤ`/`ℚ`), DataFrames as lists of row structures (the pandas
row index, where it matters, is the position in the list), and the pandas
stable lexicographic multi-column sort (`np.lexsort`) as `List.mergeSort`.
-/

/-- A Python scalar value as it can appear in an input DataFrame cell:
`None`/null, a string, an `int`, or a `float` (embedded as an exact `ℚ`). -/
inductive PyVal where
  | none
  | str (s : String)
  | int (n : ℤ)
  | float (q : ℚ)
deriving DecidableEq, Repr

/-- Python `str(x)` on a scalar.  `str(None) = "None"`; numeric renderings
are a stand-in for Python's (no claim depends on the digits produced). -/
def pyStr : PyVal → String
  | PyVal.none => "None"
  | PyVal.str s => s
  | PyVal.int n => toString n
  | PyVal.float q => toString q

/-- `isinstance(x, (int, float))` (line 427/428): true exactly for native
numeric values. -/
def isNumeric : PyVal → Bool
  | PyVal.int _ => true
  | PyVal.float _ => true
  | _ => false

/-- `pd.isna` on a scalar: only the null value is missing (a string produced
by `str(...)` is never missing). -/
def pyIsNA : PyVal → Bool
  | PyVal.none => true
  | _ => false

/-- `Series.fillna(fallback)` on one cell. -/
def pdFillna (v fallback : PyVal) : PyVal :=
  if pyIsNA v then fallback else v

/-- Numeric content of a cell (used only after `isNumeric` filtering). -/
def pyNum : PyVal → ℚ
  | PyVal.int n => (n : ℚ)
  | PyVal.float q => q
  | _ => 0

/-- String content of a cell (used only after `str` coercion). -/
def pyStrVal : PyVal → String
  | PyVal.str s => s
  | v => pyStr v

/-- One raw input row, with the four required columns, before sanitization. -/
structure RawRow where
  borehole_name : PyVal
  start : PyVal
  end_ : PyVal
  material : PyVal
deriving DecidableEq, Repr

/-- Lines 431–433: coerce `borehole_name` and `material` to strings with
`str(...)`, then `fillna('unspecified soil')` on the material column.
The `fillna` is applied AFTER the `str` coercion, exactly as in the source. -/
def coerceRow (r : RawRow) : RawRow :=
  { r with
    borehole_name := PyVal.str (pyStr r.borehole_name),
    material := pdFillna (PyVal.str (pyStr r.material)) (PyVal.str "unspecified soil") }

/-- Line 427: `eval_start` column. -/
def evalStart (r : RawRow) : Bool := isNumeric r.start

/-- Line 428: `eval_end` column. -/
def evalEnd (r : RawRow) : Bool := isNumeric r.end_

/-- A sanitized working row: exactly the four required fields, with native
numeric `start`/`end` and string `borehole_name`/`material`. -/
structure Row where
  borehole_name : String
  start : ℚ
  end_ : ℚ
  material : String
deriving DecidableEq, Repr

/-- Projection of a (coerced, numeric-valid) raw row onto the four required
columns (line 442: `df = df[required_columns]`). -/
def projectRow (r : RawRow) : Row :=
  { borehole_name := pyStrVal r.borehole_name,
    start := pyNum r.start,
    end_ := pyNum r.end_,
    material := pyStrVal r.material }

/-- Lines 426–442: compute the eval columns, coerce strings, drop the rows
whose `start` or `end` is not native-numeric, and project onto the four
required columns.  Returns the working set together with the diagnostic
count of excluded rows (`len(value_error)`, line 439). -/
def sanitize (rows : List RawRow) : List Row × ℕ :=
  let tagged := rows.map (fun r => (coerceRow r, evalStart r && evalEnd r))
  (tagged.filterMap (fun p => if p.2 then some (projectRow p.1) else Option.none),
   (tagged.filter (fun p => !p.2)).length)

/-- The comparison used by line 445,
`df.sort_values(by=['borehole_name','start'], ascending=[True, not elevation])`:
`borehole_name` ascending, ties broken by `start` (ascending in depth mode,
descending in elevation mode); rows equal on both keys compare `le` both
ways, so the stable sort keeps their original order. -/
def rowLe (elevation : Bool) (a b : Row) : Bool :=
  decide (a.borehole_name < b.borehole_name) ||
    (a.borehole_name == b.borehole_name &&
      (if elevation then decide (b.start ≤ a.start) else decide (a.start ≤ b.start)))

/-- Line 445: the pandas multi-column `sort_values`, which uses the stable
`np.lexsort`; embedded as a stable merge sort with the same key order. -/
def sort_values (elevation : Bool) (rows : List Row) : List Row :=
  rows.mergeSort (rowLe elevation)

/-- First-occurrence-order distinct values of a list, with an accumulator of
already-seen values; models `pandas.Series.unique()` (order of first
appearance). -/
def uniqueAux {α : Type} [DecidableEq α] (seen : List α) : List α → List α
  | [] => []
  | a :: l => if a ∈ seen then uniqueAux seen l else a :: uniqueAux (a :: seen) l

/-- `Series.unique()`: the distinct values in order of first appearance. -/
def uniqueFirst {α : Type} [DecidableEq α] (l : List α) : List α :=
  uniqueAux [] l

/-- The categories of `pd.Categorical(values)`: the distinct values sorted
ascending (line 140). -/
def categories (names : List String) : List String :=
  (uniqueFirst names).mergeSort (fun a b => decide (a ≤ b))

/-- A working row augmented with the derived geometry columns written by
`boreholes_coords` (lines 140–159). -/
structure CoordRow extends Row where
  multiplier : ℕ
  x1 : ℚ
  x2 : ℚ
  borehole_start : ℚ
  y1 : ℚ
  y2 : ℚ
deriving DecidableEq, Repr

/-- Line 143: `df.groupby('borehole_name')['start'].transform('first')` —
the `start` of the first row of the frame (in frame order) whose
`borehole_name` equals `bn`. -/
def firstStart (rows : List Row) (bn : String) : ℚ :=
  match rows.find? (fun r => r.borehole_name == bn) with
  | some r => r.start
  | Option.none => 0

/-- Lines 110–159, `boreholes_coords`: per-row geometry.
`multiplier` is the `pd.Categorical(...).codes` value: the index of the
row's borehole name among the sorted distinct names.  The `match` on
`[elevation, draw_on_zero]` is the source's `match` (lines 145–157). -/
def boreholes_coords (rows : List Row) (borehole_thickness space_between_boreholes : ℚ)
    (elevation draw_on_zero : Bool) : List CoordRow :=
  let cats := categories (rows.map Row.borehole_name)
  rows.map (fun r =>
    let m : ℕ := cats.indexOf r.borehole_name
    let x1 : ℚ := (borehole_thickness + space_between_boreholes) * (m : ℚ)
    let x2 : ℚ := borehole_thickness + x1
    let bs : ℚ := firstStart rows r.borehole_name
    let y : ℚ × ℚ :=
      match elevation, draw_on_zero with
      | true, true => (r.start - bs, r.end_ - bs)
      | true, false => (r.start, r.end_)
      | false, _ => (-r.start, -r.end_)
    { toRow := r, multiplier := m, x1 := x1, x2 := x2,
      borehole_start := bs, y1 := y.1, y2 := y.2 })

/-- Line 460: `df['end'].shift(1, fill_value=df['start'].iloc[0])` — the
previous row's `end`, with the first row's own `start` filling position 0. -/
def prevLayerEnds (rows : List Row) : List ℚ :=
  match rows with
  | [] => []
  | r0 :: _ => r0.start :: (rows.dropLast.map Row.end_)

/-- Line 461: `df['borehole_name'].shift(1).bfill()` — the previous row's
`borehole_name`; the missing value at position 0 is back-filled with the
next valid value (the first row's own name) when the frame has at least two
rows, and stays missing for a single-row frame. -/
def prevBoreholes (rows : List Row) : List (Option String) :=
  match rows with
  | [] => []
  | [_] => [Option.none]
  | r0 :: r1 :: rest =>
      some r0.borehole_name ::
        ((r0 :: r1 :: rest).dropLast.map (fun r => some r.borehole_name))

/-- Lines 463–466: a row is flagged exactly when
`previous_layer_end != start` and `previous_borehole == borehole_name`
(pandas equality against a missing value is false). -/
def gapOverlayFlags (rows : List Row) : List Bool :=
  (rows.zip ((prevLayerEnds rows).zip (prevBoreholes rows))).map
    (fun p => decide (p.2.1 ≠ p.1.start) && decide (p.2.2 = some p.1.borehole_name))

/-- A user-supplied color value: an RGB 3-tuple of numbers, or a string
(hex or named color) to be resolved by the color library. -/
inductive ColorSpec where
  | rgb (r g b : ℚ)
  | str (s : String)
deriving DecidableEq, Repr

/-- `matplotlib.colors.is_color_like` on a float 3-tuple: every channel must
lie in `[0, 1]`. -/
def isColorLike (c : ℚ × ℚ × ℚ) : Bool :=
  decide (0 ≤ c.1 ∧ c.1 ≤ 1) && decide (0 ≤ c.2.1 ∧ c.2.1 ≤ 1) &&
    decide (0 ≤ c.2.2 ∧ c.2.2 ≤ 1)

/-- Python `int(x)`: truncation toward zero. -/
def pyInt (q : ℚ) : ℤ :=
  if 0 ≤ q then ⌊q⌋ else ⌈q⌉

/-- `tuple(int(x * 255) for x in color)` (line 67). -/
def rgbOut (c : ℚ × ℚ × ℚ) : ℤ × ℤ × ℤ :=
  (pyInt (c.1 * 255), pyInt (c.2.1 * 255), pyInt (c.2.2 * 255))

/-- Lines 52–61: normalize one user color value to a unit-interval triple.
An RGB tuple is divided channel-wise by 255; a string goes through
`mcolors.to_rgb` (the abstract resolver `resolveStr`; an unresolvable
string raises, which the `except` turns into "not valid").  Either way the
result is checked with `is_color_like`.  `none` means "not a valid color". -/
def evalOneColor (resolveStr : String → Option (ℚ × ℚ × ℚ)) :
    ColorSpec → Option (ℚ × ℚ × ℚ)
  | ColorSpec.rgb r g b =>
      let c := (r / 255, g / 255, b / 255)
      if isColorLike c then some c else Option.none
  | ColorSpec.str s =>
      match resolveStr s with
      | some c => if isColorLike c then some c else Option.none
      | Option.none => Option.none

/-- The loop of `evaluate_colors` (lines 45–70) over the distinct materials,
with the accumulated `colorsdict`: a missing key or an invalid value
returns `(False, {})` immediately; otherwise the converted RGB triple is
inserted and the loop continues. -/
def evaluateColorsAux (resolveStr : String → Option (ℚ × ℚ × ℚ))
    (colors : List (String × ColorSpec)) :
    List String → List (String × (ℤ × ℤ × ℤ)) → Bool × List (String × (ℤ × ℤ × ℤ))
  | [], acc => (true, acc)
  | m :: rest, acc =>
      match colors.lookup m with
      | Option.none => (false, [])
      | some spec =>
          match evalOneColor resolveStr spec with
          | Option.none => (false, [])
          | some c => evaluateColorsAux resolveStr colors rest (acc ++ [(m, rgbOut c)])

/-- Lines 28–70, `evaluate_colors(colors, df)`: iterate over
`df['material'].unique()` and validate the user map all-or-nothing.
`materials` is the material column of the working frame. -/
def evaluate_colors (resolveStr : String → Option (ℚ × ℚ × ℚ))
    (colors : List (String × ColorSpec)) (materials : List String) :
    Bool × List (String × (ℤ × ℤ × ℤ)) :=
  evaluateColorsAux resolveStr colors (uniqueFirst materials) []

/-- `np.linspace(0, 1, n)` (line 91): `n` evenly spaced points, `i/(n-1)`
for `n > 1`, the single point `0` for `n = 1`, empty for `n = 0`. -/
def linspace01 (n : ℕ) : List ℚ :=
  if n ≤ 1 then (List.range n).map (fun _ => (0 : ℚ))
  else (List.range n).map (fun i => (i : ℚ) / ((n : ℚ) - 1))

/-- Lines 73–107, `get_colors(colorscale, materials)`: sample the named
colormap (`cmap` is the abstract colormap table; an unknown name raises
inside the `try`, re-raised as `ValueError`) at `len(materials)` evenly
spaced points and pair the materials with the converted RGB triples. -/
def get_colors (cmap : String → Option (ℚ → ℚ × ℚ × ℚ)) (colorscale : String)
    (materials : List String) : Except String (List (String × (ℤ × ℤ × ℤ))) :=
  match cmap colorscale with
  | Option.none =>
      Except.error
        ("Error creating the colors dict. Verify the colorscale name you provided: " ++ colorscale)
  | some f =>
      Except.ok (materials.zip ((linspace01 materials.length).map (fun t => rgbOut (f t))))

/-- The `colors` argument of `borehole2D`: absent (`None`, the default), a
dict, or some other Python value such as a string or a list. -/
inductive ColorsArg where
  | noneA
  | dictA (entries : List (String × ColorSpec))
  | strA (s : String)
  | listA (l : List ColorSpec)
deriving Repr

/-- Lines 447–457 of `borehole2D`: `evaluate_colors` is attempted only when
`type(colors) == dict`; when it is not attempted or returns `False`, the
colors are synthesized with `get_colors` (which can raise `ValueError`).
No other outcome exists: a non-dict `colors` value takes the same fallback
path as an absent one. -/
def resolveColorsTop (resolveStr : String → Option (ℚ × ℚ × ℚ))
    (cmap : String → Option (ℚ → ℚ × ℚ × ℚ)) (colors : ColorsArg)
    (colorscale : String) (materials : List String) :
    Except String (List (String × (ℤ × ℤ × ℤ))) :=
  let ev :=
    match colors with
    | ColorsArg.dictA entries => evaluate_colors resolveStr entries materials
    | _ => (false, [])
  if ev.1 then Except.ok ev.2
  else get_colors cmap colorscale materials

/-- Python `round(q, 2)` (banker's rounding at the midpoint), kept as an
exact rational.  The emitted label text is `str` of this value; since that
rendering is injective on the rounded values, labels are modelled by the
rounded rational itself. -/
def round2 (q : ℚ) : ℚ :=
  let x := q * 100
  let f : ℤ := ⌊x⌋
  let r : ℤ :=
    if x - (f : ℚ) < 1 / 2 then f
    else if x - (f : ℚ) > 1 / 2 then f + 1
    else if 2 ∣ f then f else f + 1
  (r : ℚ) / 100

/-- Lines 296–305: the two `(position, text)` dimension labels of one layer:
the `start` value at `(x1 - .5, y1)` and the `end` value at `(x1 - .5, y2)`. -/
def dimensionLabels (r : CoordRow) : List ((ℚ × ℚ) × ℚ) :=
  [((r.x1 - 1 / 2, r.y1), round2 r.start), ((r.x1 - 1 / 2, r.y2), round2 r.end_)]

/-- Lines 309–324: the emission loop of `draw_dimension` with its
`drew_layers` accumulator — a label equal to one already drawn is skipped,
any other label is emitted and appended. -/
def drawDimensionAux (drew : List ((ℚ × ℚ) × ℚ)) :
    List ((ℚ × ℚ) × ℚ) → List ((ℚ × ℚ) × ℚ)
  | [] => drew
  | d :: ds =>
      if d ∈ drew then drawDimensionAux drew ds
      else drawDimensionAux (drew ++ [d]) ds

/-- Lines 278–324, `draw_dimension`: the sequence of labels actually written
to the modelspace, in emission order. -/
def draw_dimension (rows : List CoordRow) : List ((ℚ × ℚ) × ℚ) :=
  drawDimensionAux [] (rows.flatMap dimensionLabels)

/-- The state of one DataFrame object at the successive stages of the
pipeline: the caller's raw frame; the caller's frame after the eval columns
were added and the string columns coerced in place (lines 427–433); the
filtered four-column working copy (lines 436–445); and the frame returned
by `boreholes_coords`. -/
inductive PdFrame where
  | raw (rows : List RawRow)
  | rawEval (rows : List RawRow) (evals : List (Bool × Bool))
  | working (rows : List Row)
  | coords (rows : List CoordRow)

/-- A heap of Python DataFrame objects, indexed by reference. -/
def Heap : Type := ℕ → PdFrame

/-- The call `boreholes_coords(df, ...)` (lines 140–159) with Python object
semantics: every `df[col] = ...` assignment mutates the object behind the
reference in place, and `return df` (line 159) returns the same reference. -/
def boreholes_coords_call (h : Heap) (ref : ℕ) (t s : ℚ) (e z : Bool) : Heap × ℕ :=
  match h ref with
  | PdFrame.working rows =>
      (Function.update h ref (PdFrame.coords (boreholes_coords rows t s e z)), ref)
  | _ => (h, ref)

/-- Lines 427–445 of `borehole2D` with Python object semantics: the column
assignments of lines 427–433 mutate the caller's frame in place (adding the
eval columns and coercing the string columns), while the filtering, column
projection and sort of lines 436–445 rebind the local name `df` to a fresh
object, leaving the caller's object in its mutated state. -/
def sanitize_stage_call (h : Heap) (ref fresh : ℕ) (elevation : Bool) : Heap × ℕ :=
  match h ref with
  | PdFrame.raw rows =>
      let h1 := Function.update h ref
        (PdFrame.rawEval (rows.map coerceRow)
          (rows.map (fun r => (evalStart r, evalEnd r))))
      (Function.update h1 fresh
        (PdFrame.working (sort_values elevation (sanitize rows).1)), fresh)
  | _ => (h, ref)

section SanitizeLemmas

/-- The working set produced by `sanitize` is the numeric-valid rows, in
order, coerced and projected. -/
theorem sanitize_fst_eq (rows : List RawRow) :
    (sanitize rows).1 =
      (rows.filter (fun r => isNumeric r.start && isNumeric r.end_)).map
        (fun r => projectRow (coerceRow r)) := by
  induction rows with
  | nil => rfl
  | cons r rs ih =>
      cases hs : isNumeric r.start <;> cases he : isNumeric r.end_ <;>
        simp only [sanitize, List.map_cons, List.filterMap_cons, List.filter_cons,
          evalStart, evalEnd, hs, he, Bool.and_self, Bool.and_false, Bool.and_true,
          Bool.false_and, Bool.true_and, Bool.not_true, Bool.not_false,
          if_true, if_false, List.length_cons, List.map_nil] <;>
        simp only [sanitize, evalStart, evalEnd] at ih <;>
        simp [ih]

/-- The diagnostic count produced by `sanitize` is the number of rows that
fail the numeric check. -/
theorem sanitize_snd_eq (rows : List RawRow) :
    (sanitize rows).2 =
      (rows.filter (fun r => !(isNumeric r.start && isNumeric r.end_))).length := by
  induction rows with
  | nil => rfl
  | cons r rs ih =>
      cases hs : isNumeric r.start <;> cases he : isNumeric r.end_ <;>
        simp only [sanitize, List.map_cons, List.filterMap_cons, List.filter_cons,
          evalStart, evalEnd, hs, he, Bool.and_self, Bool.and_false, Bool.and_true,
          Bool.false_and, Bool.true_and, Bool.not_true, Bool.not_false,
          if_true, if_false, List.length_cons, List.map_nil] <;>
        simp only [sanitize, evalStart, evalEnd] at ih <;>
        simp [ih]

end SanitizeLemmas

/-- C6. A row is retained in the working set if and only if both its
`start` and `end` values are already native numeric (`int` or `float`):
the working set is exactly the numeric-valid rows (coerced and projected,
in order), string-encoded numbers are rejected, and the invalid rows are
not fatal — they are merely counted, and the retained and excluded rows
together exhaust the input. -/
theorem c6_numeric_validation (rows : List RawRow) :
    (sanitize rows).1 =
      (rows.filter (fun r => isNumeric r.start && isNumeric r.end_)).map
        (fun r => projectRow (coerceRow r)) ∧
    (sanitize rows).2 =
      (rows.filter (fun r => !(isNumeric r.start && isNumeric r.end_))).length ∧
    (sanitize rows).1.length + (sanitize rows).2 = rows.length ∧
    (∀ s : String, isNumeric (PyVal.str s) = false) ∧
    (∀ n : ℤ, isNumeric (PyVal.int n) = true) ∧
    (∀ q : ℚ, isNumeric (PyVal.float q) = true) := by
  refine ⟨sanitize_fst_eq rows, sanitize_snd_eq rows, ?_, fun _ => rfl, fun _ => rfl, fun _ => rfl⟩
  rw [sanitize_fst_eq, sanitize_snd_eq, List.length_map]
  exact (List.length_eq_length_filter_add (l := rows)
    (fun r => isNumeric r.start && isNumeric r.end_)).symm

/-- C5. The intended null-material default can never fire: the `str`
coercion of line 432 runs before the `fillna` of line 433, so a null
`material` reaches the working set as the string `"None"`, not as
`"unspecified soil"`.  Evaluation of the embedded code at the failing
input (a numeric-valid row whose `material` is null). -/
theorem c5_null_material_evaluation :
    (sanitize [{ borehole_name := PyVal.str "BH1", start := PyVal.int 0,
                 end_ := PyVal.int 1, material := PyVal.none }]).1 =
      [{ borehole_name := "BH1", start := 0, end_ := 1, material := "None" }] ∧
    "None" ≠ "unspecified soil" := by
  exact ⟨rfl, by decide⟩

/-- The `drew_layers` loop invariant: starting from a duplicate-free
accumulator, the emission loop keeps the emitted list duplicate-free, and
the emitted labels are exactly the accumulator together with the pending
labels. -/
theorem drawDimensionAux_spec (ds : List ((ℚ × ℚ) × ℚ)) :
    ∀ drew : List ((ℚ × ℚ) × ℚ), drew.Nodup →
      (drawDimensionAux drew ds).Nodup ∧
        ∀ d, d ∈ drawDimensionAux drew ds ↔ d ∈ drew ∨ d ∈ ds := by
  induction ds with
  | nil =>
      intro drew hnd
      exact ⟨hnd, fun d => by simp [drawDimensionAux]⟩
  | cons d ds ih =>
      intro drew hnd
      by_cases hm : d ∈ drew
      · have h := ih drew hnd
        refine ⟨by simpa [drawDimensionAux, hm] using h.1, fun x => ?_⟩
        rw [drawDimensionAux, if_pos hm, h.2 x]
        simp only [List.mem_cons]
        constructor
        · rintro (hx | hx)
          · exact Or.inl hx
          · exact Or.inr (Or.inr hx)
        · rintro (hx | (rfl | hx))
          · exact Or.inl hx
          · exact Or.inl hm
          · exact Or.inr hx
      · have hnd' : (drew ++ [d]).Nodup := by
          simp [List.nodup_append, hnd, hm]
        have h := ih (drew ++ [d]) hnd'
        refine ⟨by simpa [drawDimensionAux, hm] using h.1, fun x => ?_⟩
        rw [drawDimensionAux, if_neg hm, h.2 x]
        simp only [List.mem_append, List.mem_cons, List.mem_singleton]
        tauto

/-- C9. Dimension-label emission is deduplicating: the list of labels that
`draw_dimension` actually writes has no duplicate `(position, text)` pair
(each pair is emitted at most once), and a pair is emitted exactly when it
is one of the start/end boundary labels of some layer — so two layers
meeting at the same coordinate with the same rounded value produce exactly
one label there. -/
theorem c9_dimension_dedup (rows : List CoordRow) :
    (draw_dimension rows).Nodup ∧
      ∀ d, d ∈ draw_dimension rows ↔ d ∈ rows.flatMap dimensionLabels := by
  have h := drawDimensionAux_spec (rows.flatMap dimensionLabels) [] List.nodup_nil
  exact ⟨h.1, fun d => by rw [draw_dimension, h.2 d]; simp⟩

/-- `boreholes_coords` copies every pre-existing column value unchanged:
stripping the derived columns from its output gives back the input rows. -/
theorem boreholes_coords_preserves_base (rows : List Row) (t s : ℚ) (e z : Bool) :
    (boreholes_coords rows t s e z).map CoordRow.toRow = rows := by
  rw [boreholes_coords, List.map_map]
  exact List.map_id'' (fun r => rfl) rows

/-- C10. The drawing pipeline mutates the caller-supplied DataFrame rather
than private copies.  First, `boreholes_coords(df, ...)` returns the very
same object it was given (the reference is unchanged), stores at it the
frame augmented with the derived columns `multiplier`, `x1`, `x2`,
`borehole_start`, `y1`, `y2`, touches no other object, and leaves every
pre-existing column value unchanged.  Second, the sanitization stage of
`borehole2D` writes the string coercions and `eval_start`/`eval_end`
columns into the caller's object — which therefore remains visibly
modified — while the filtered working set lives at a fresh reference that
the rest of the pipeline uses. -/
theorem c10_in_place_mutation :
    (∀ (h : Heap) (ref : ℕ) (t s : ℚ) (e z : Bool) (rows : List Row),
        h ref = PdFrame.working rows →
          (boreholes_coords_call h ref t s e z).2 = ref ∧
          (boreholes_coords_call h ref t s e z).1 ref =
            PdFrame.coords (boreholes_coords rows t s e z) ∧
          (∀ q : ℕ, q ≠ ref → (boreholes_coords_call h ref t s e z).1 q = h q) ∧
          (boreholes_coords rows t s e z).map CoordRow.toRow = rows) ∧
    (∀ (h : Heap) (ref fresh : ℕ) (e : Bool) (rows : List RawRow),
        h ref = PdFrame.raw rows → fresh ≠ ref →
          (sanitize_stage_call h ref fresh e).2 = fresh ∧
          (sanitize_stage_call h ref fresh e).1 ref =
            PdFrame.rawEval (rows.map coerceRow)
              (rows.map (fun r => (evalStart r, evalEnd r)))) := by
  constructor
  · intro h ref t s e z rows href
    refine ⟨?_, ?_, ?_, boreholes_coords_preserves_base rows t s e z⟩
    · simp [boreholes_coords_call, href]
    · simp [boreholes_coords_call, href]
    · intro q hq
      simp [boreholes_coords_call, href, Function.update_noteq hq]
  · intro h ref fresh e rows href hfr
    constructor
    · simp [sanitize_stage_call, href]
    · simp [sanitize_stage_call, href, Function.update_noteq (Ne.symm hfr),
        Function.update_noteq hfr]

/-- A heap holding a single empty working frame. -/
def demoHeapW : Heap := fun _ => PdFrame.working []

/-- A heap holding a single empty raw frame. -/
def demoHeapR : Heap := fun _ => PdFrame.raw []

theorem c10_in_place_mutation_witness :
    (boreholes_coords_call demoHeapW 0 1 5 false true).2 = 0 ∧
    (sanitize_stage_call demoHeapR 0 1 false).2 = 1 :=
  ⟨(c10_in_place_mutation.1 demoHeapW 0 1 5 false true [] rfl).1,
   (c10_in_place_mutation.2 demoHeapR 0 1 false [] rfl (by decide)).1⟩

theorem length_prevLayerEnds (rows : List Row) :
    (prevLayerEnds rows).length = rows.length := by
  cases rows with
  | nil => rfl
  | cons r0 rest => simp [prevLayerEnds]

theorem length_prevBoreholes (rows : List Row) :
    (prevBoreholes rows).length = rows.length := by
  match rows with
  | [] => rfl
  | [r] => rfl
  | r0 :: r1 :: rest => simp [prevBoreholes]

theorem length_gapOverlayFlags (rows : List Row) :
    (gapOverlayFlags rows).length = rows.length := by
  simp [gapOverlayFlags, length_prevLayerEnds, length_prevBoreholes]

theorem prevLayerEnds_zero (rows : List Row) (h : 0 < (prevLayerEnds rows).length)
    (h0 : 0 < rows.length) :
    (prevLayerEnds rows)[0] = (rows[0]).start := by
  cases rows with
  | nil => exact absurd h0 (by simp)
  | cons r0 rest => simp [prevLayerEnds]

theorem prevLayerEnds_succ (rows : List Row) (i : ℕ) (hi : i + 1 < rows.length)
    (h : i + 1 < (prevLayerEnds rows).length) (hii : i < rows.length) :
    (prevLayerEnds rows)[i + 1] = (rows[i]).end_ := by
  cases rows with
  | nil => exact absurd hi (by simp)
  | cons r0 rest =>
      have hd : i < ((r0 :: rest).dropLast.map Row.end_).length := by
        simp only [List.length_map, List.length_dropLast, List.length_cons]
        simp only [List.length_cons] at hi
        omega
      show (r0.start :: ((r0 :: rest).dropLast.map Row.end_))[i + 1] = _
      rw [List.getElem_cons_succ, List.getElem_map, List.getElem_dropLast]

theorem prevBoreholes_succ (rows : List Row) (i : ℕ) (hi : i + 1 < rows.length)
    (h : i + 1 < (prevBoreholes rows).length) (hii : i < rows.length) :
    (prevBoreholes rows)[i + 1] = some ((rows[i]).borehole_name) := by
  match rows with
  | [] => exact absurd hi (by simp)
  | [r] => exact absurd hi (by simp)
  | r0 :: r1 :: rest =>
      have hd : i < ((r0 :: r1 :: rest).dropLast.map
          (fun r => some r.borehole_name)).length := by
        simp only [List.length_map, List.length_dropLast, List.length_cons]
        simp only [List.length_cons] at hi
        omega
      show (some r0.borehole_name ::
        ((r0 :: r1 :: rest).dropLast.map (fun r => some r.borehole_name)))[i + 1] = _
      rw [List.getElem_cons_succ, List.getElem_map, List.getElem_dropLast]

theorem gapOverlayFlags_getElem (rows : List Row) (i : ℕ)
    (hf : i < (gapOverlayFlags rows).length) (hr : i < rows.length)
    (hpe : i < (prevLayerEnds rows).length) (hpb : i < (prevBoreholes rows).length) :
    (gapOverlayFlags rows)[i] =
      (decide ((prevLayerEnds rows)[i] ≠ (rows[i]).start) &&
        decide ((prevBoreholes rows)[i] = some ((rows[i]).borehole_name))) := by
  simp only [gapOverlayFlags, List.getElem_map, List.getElem_zip]

/-- C7. On the sorted working set, a row is flagged gap-or-overlap exactly
when the previous row's `end` differs from its `start` AND the previous
row's `borehole_name` equals its own: the flag list is the row list in
length; the first row overall is never flagged (its `previous_layer_end`
is back-filled with its own `start`); and every later row is flagged if
and only if its predecessor ends elsewhere AND belongs to the same
borehole — in particular a row whose predecessor belongs to a different
borehole is never flagged.  The flags are only counted for a log message;
no pipeline stage consumes them. -/
theorem c7_gap_overlap_flag (rows : List Row) :
    (gapOverlayFlags rows).length = rows.length ∧
    (∀ hf : 0 < (gapOverlayFlags rows).length, (gapOverlayFlags rows)[0] = false) ∧
    (∀ i : ℕ, ∀ hi : i + 1 < rows.length,
      ∀ hf : i + 1 < (gapOverlayFlags rows).length,
        ((gapOverlayFlags rows)[i + 1] = true ↔
          ((rows[i]).end_ ≠ (rows[i + 1]).start ∧
            (rows[i]).borehole_name = (rows[i + 1]).borehole_name))) := by
  refine ⟨length_gapOverlayFlags rows, ?_, ?_⟩
  · intro hf
    have h0 : 0 < rows.length := by
      rw [length_gapOverlayFlags] at hf; exact hf
    have hpe : 0 < (prevLayerEnds rows).length := by
      rw [length_prevLayerEnds]; exact h0
    have hpb : 0 < (prevBoreholes rows).length := by
      rw [length_prevBoreholes]; exact h0
    rw [gapOverlayFlags_getElem rows 0 hf h0 hpe hpb, prevLayerEnds_zero rows hpe h0]
    simp
  · intro i hi hf
    have hii : i < rows.length := Nat.lt_of_succ_lt hi
    have hpe : i + 1 < (prevLayerEnds rows).length := by
      rw [length_prevLayerEnds]; exact hi
    have hpb : i + 1 < (prevBoreholes rows).length := by
      rw [length_prevBoreholes]; exact hi
    rw [gapOverlayFlags_getElem rows (i + 1) hf hi hpe hpb,
      prevLayerEnds_succ rows i hi hpe hii, prevBoreholes_succ rows i hi hpb hii]
    simp

/-- Two layers of one borehole with a gap (`[A,0,2]` then `[A,3,5]`). -/
def c7demo : List Row :=
  [{ borehole_name := "A", start := 0, end_ := 2, material := "clay" },
   { borehole_name := "A", start := 3, end_ := 5, material := "sand" }]

theorem c7_gap_overlap_flag_witness :
    (gapOverlayFlags c7demo).get ⟨0, by decide⟩ = false ∧
      ((gapOverlayFlags c7demo).get ⟨1, by decide⟩ = true ↔
        ((c7demo.get ⟨0, by decide⟩).end_ ≠ (c7demo.get ⟨1, by decide⟩).start ∧
          (c7demo.get ⟨0, by decide⟩).borehole_name =
            (c7demo.get ⟨1, by decide⟩).borehole_name)) :=
  ⟨(c7_gap_overlap_flag c7demo).2.1 (by decide),
   (c7_gap_overlap_flag c7demo).2.2 0 (by decide) (by decide)⟩

/-- `List.find?` returns the element at the least index satisfying the
predicate, when one exists. -/
theorem find?_first_idx {α : Type} (p : α → Bool) (l : List α) (hx : ∃ a ∈ l, p a) :
    ∃ j, ∃ hj : j < l.length, p (l.get ⟨j, hj⟩) = true ∧
      (∀ k, ∀ hk : k < l.length, k < j → p (l.get ⟨k, hk⟩) = false) ∧
      l.find? p = some (l.get ⟨j, hj⟩) := by
  induction l with
  | nil => simp at hx
  | cons a t ih =>
      by_cases ha : p a = true
      · exact ⟨0, by simp, ha, fun k hk hk0 => absurd hk0 (Nat.not_lt_zero k),
          by rw [List.find?_cons_of_pos _ ha]; rfl⟩
      · have hx' : ∃ x ∈ t, p x := by
          rcases hx with ⟨x, hxm, hxp⟩
          rcases List.mem_cons.mp hxm with rfl | hxm
          · exact absurd hxp ha
          · exact ⟨x, hxm, hxp⟩
        rcases ih hx' with ⟨j, hj, hpj, hmin, hfind⟩
        refine ⟨j + 1, by simpa using Nat.succ_lt_succ hj, hpj, ?_, ?_⟩
        · intro k hk hkj
          match k with
          | 0 => simpa using ha
          | k' + 1 =>
              exact hmin k' (by simpa using Nat.lt_of_succ_lt_succ hk)
                (Nat.lt_of_succ_lt_succ hkj)
        · rw [List.find?_cons_of_neg _ ha, hfind]; rfl

/-- C1. Vertical extents per mode.  In depth mode (whatever `draw_on_zero`
is) every row gets `y1 = -start`, `y2 = -end`; in elevation mode without
`draw_on_zero` it gets the raw `y1 = start`, `y2 = end`; and in elevation
mode with `draw_on_zero` it gets `y1 = start - borehole_start`,
`y2 = end - borehole_start`, where `borehole_start` is the `start` of the
first row in frame (sort) order carrying the same `borehole_name` — the
witness index `j` below, the least index of that borehole. -/
theorem c1_vertical_modes (rows : List Row) (t s : ℚ) (i : ℕ) (hi : i < rows.length) :
    (∀ z : Bool, ∀ hz : i < (boreholes_coords rows t s false z).length,
        ((boreholes_coords rows t s false z).get ⟨i, hz⟩).y1 =
            -(rows.get ⟨i, hi⟩).start ∧
          ((boreholes_coords rows t s false z).get ⟨i, hz⟩).y2 =
            -(rows.get ⟨i, hi⟩).end_) ∧
    (∀ he : i < (boreholes_coords rows t s true false).length,
        ((boreholes_coords rows t s true false).get ⟨i, he⟩).y1 =
            (rows.get ⟨i, hi⟩).start ∧
          ((boreholes_coords rows t s true false).get ⟨i, he⟩).y2 =
            (rows.get ⟨i, hi⟩).end_) ∧
    (∀ hz : i < (boreholes_coords rows t s true true).length,
        ∃ j, ∃ hj : j < rows.length,
          (rows.get ⟨j, hj⟩).borehole_name = (rows.get ⟨i, hi⟩).borehole_name ∧
          (∀ k, ∀ hk : k < rows.length, k < j →
              (rows.get ⟨k, hk⟩).borehole_name ≠ (rows.get ⟨i, hi⟩).borehole_name) ∧
          ((boreholes_coords rows t s true true).get ⟨i, hz⟩).y1 =
              (rows.get ⟨i, hi⟩).start - (rows.get ⟨j, hj⟩).start ∧
          ((boreholes_coords rows t s true true).get ⟨i, hz⟩).y2 =
              (rows.get ⟨i, hi⟩).end_ - (rows.get ⟨j, hj⟩).start) := by
  refine ⟨?_, ?_, ?_⟩
  · intro z hz
    constructor <;> simp [boreholes_coords, List.get_eq_getElem, List.getElem_map]
  · intro he
    constructor <;> simp [boreholes_coords, List.get_eq_getElem, List.getElem_map]
  · intro hz
    have hx : ∃ a ∈ rows, (a.borehole_name == (rows.get ⟨i, hi⟩).borehole_name) = true :=
      ⟨rows.get ⟨i, hi⟩, List.get_mem rows i hi, beq_self_eq_true _⟩
    rcases find?_first_idx (fun r => r.borehole_name == (rows.get ⟨i, hi⟩).borehole_name)
      rows hx with ⟨j, hj, hpj, hmin, hfind⟩
    have hbs : firstStart rows (rows.get ⟨i, hi⟩).borehole_name =
        (rows.get ⟨j, hj⟩).start := by
      rw [firstStart, hfind]
    simp only [List.get_eq_getElem] at hbs
    refine ⟨j, hj, by simpa using hpj, ?_, ?_, ?_⟩
    · intro k hk hkj
      have := hmin k hk hkj
      simpa using this
    · simp only [boreholes_coords, List.get_eq_getElem, List.getElem_map]
      rw [hbs]
    · simp only [boreholes_coords, List.get_eq_getElem, List.getElem_map]
      rw [hbs]

/-- The spec's depth-mode example: one borehole, layers `[0,2]` and `[2,5]`. -/
def c1demo : List Row :=
  [{ borehole_name := "A", start := 0, end_ := 2, material := "clay" },
   { borehole_name := "A", start := 2, end_ := 5, material := "sand" }]

theorem c1_vertical_modes_witness :
    ((boreholes_coords c1demo 1 5 false true).get ⟨1, by decide⟩).y1 =
        -(c1demo.get ⟨1, by decide⟩).start ∧
      ((boreholes_coords c1demo 1 5 false true).get ⟨1, by decide⟩).y2 =
        -(c1demo.get ⟨1, by decide⟩).end_ :=
  (c1_vertical_modes c1demo 1 5 1 (by decide)).1 true (by decide)

/-- `uniqueAux` yields a sublist of its input. -/
theorem uniqueAux_sublist {α : Type} [DecidableEq α] (l : List α) :
    ∀ seen : List α, List.Sublist (uniqueAux seen l) l := by
  induction l with
  | nil => intro seen; simp [uniqueAux]
  | cons a t ih =>
      intro seen
      by_cases h : a ∈ seen
      · rw [uniqueAux, if_pos h]
        exact (ih seen).cons a
      · rw [uniqueAux, if_neg h]
        exact (ih (a :: seen)).cons₂ a

/-- On a list whose values are already in ascending order — as the
`borehole_name` column of the sorted working set is — the sorted distinct
categories coincide with the distinct values in order of first appearance. -/
theorem categories_of_sorted (names : List String)
    (h : names.Pairwise (fun a b => a ≤ b)) :
    categories names = uniqueFirst names := by
  have hsub : List.Sublist (uniqueFirst names) names := uniqueAux_sublist names []
  have hpw : (uniqueFirst names).Pairwise (fun a b => a ≤ b) := h.sublist hsub
  exact List.mergeSort_of_sorted (hpw.imp (fun hab => by simpa using hab))

/-- C2. Horizontal extents.  For a working set sorted by `borehole_name`
ascending, every row's `x1` is `k * (thickness + spacing)` and its `x2` is
`x1 + thickness`, where `k` is the 0-based ordinal of the row's borehole
name in order of first appearance; all rows of the same borehole share the
same `x1` and `x2`; and the horizontal extents depend only on the
`borehole_name` column — any frame with the same name column in the same
order yields the same `x1`, `x2` at every position, whatever its `start`
and `end` values. -/
theorem c2_horizontal (rows : List Row) (t s : ℚ) (e z : Bool)
    (hsorted : rows.Pairwise (fun a b => a.borehole_name ≤ b.borehole_name))
    (i : ℕ) (hi : i < rows.length)
    (hbi : i < (boreholes_coords rows t s e z).length) :
    ((boreholes_coords rows t s e z).get ⟨i, hbi⟩).x1 =
        (((uniqueFirst (rows.map Row.borehole_name)).indexOf
          (rows.get ⟨i, hi⟩).borehole_name : ℕ) : ℚ) * (t + s) ∧
    ((boreholes_coords rows t s e z).get ⟨i, hbi⟩).x2 =
        ((boreholes_coords rows t s e z).get ⟨i, hbi⟩).x1 + t ∧
    (∀ j : ℕ, ∀ hj : j < rows.length,
      ∀ hbj : j < (boreholes_coords rows t s e z).length,
        (rows.get ⟨j, hj⟩).borehole_name = (rows.get ⟨i, hi⟩).borehole_name →
          ((boreholes_coords rows t s e z).get ⟨j, hbj⟩).x1 =
              ((boreholes_coords rows t s e z).get ⟨i, hbi⟩).x1 ∧
            ((boreholes_coords rows t s e z).get ⟨j, hbj⟩).x2 =
              ((boreholes_coords rows t s e z).get ⟨i, hbi⟩).x2) ∧
    (∀ rows' : List Row,
        rows'.map Row.borehole_name = rows.map Row.borehole_name →
          ∀ hbi' : i < (boreholes_coords rows' t s e z).length,
            ((boreholes_coords rows' t s e z).get ⟨i, hbi'⟩).x1 =
                ((boreholes_coords rows t s e z).get ⟨i, hbi⟩).x1 ∧
              ((boreholes_coords rows' t s e z).get ⟨i, hbi'⟩).x2 =
                ((boreholes_coords rows t s e z).get ⟨i, hbi⟩).x2) := by
  have hx : ∀ (rs : List Row) (k : ℕ) (hk : k < rs.length)
      (hbk : k < (boreholes_coords rs t s e z).length),
      ((boreholes_coords rs t s e z).get ⟨k, hbk⟩).x1 =
          (t + s) * (((categories (rs.map Row.borehole_name)).indexOf
            (rs.get ⟨k, hk⟩).borehole_name : ℕ) : ℚ) ∧
        ((boreholes_coords rs t s e z).get ⟨k, hbk⟩).x2 =
          t + ((boreholes_coords rs t s e z).get ⟨k, hbk⟩).x1 := by
    intro rs k hk hbk
    constructor <;> simp [boreholes_coords, List.get_eq_getElem, List.getElem_map]
  have hnames : (rows.map Row.borehole_name).Pairwise (fun a b => a ≤ b) :=
    (List.pairwise_map).mpr hsorted
  have hcat := categories_of_sorted (rows.map Row.borehole_name) hnames
  refine ⟨?_, ?_, ?_, ?_⟩
  · rw [(hx rows i hi hbi).1, hcat, mul_comm]
  · rw [(hx rows i hi hbi).2, add_comm]
  · intro j hj hbj hbn
    constructor
    · rw [(hx rows j hj hbj).1, (hx rows i hi hbi).1, hbn]
    · rw [(hx rows j hj hbj).2, (hx rows i hi hbi).2,
        (hx rows j hj hbj).1, (hx rows i hi hbi).1, hbn]
  · intro rows' hmap hbi'
    have hi' : i < rows'.length := by
      have := congrArg List.length hmap
      simp only [List.length_map] at this
      omega
    have hbn' : (rows'.get ⟨i, hi'⟩).borehole_name =
        (rows.get ⟨i, hi⟩).borehole_name := by
      have h1 := List.get_of_eq hmap ⟨i, by simpa using hi'⟩
      simpa [List.get_eq_getElem, List.getElem_map] using h1
    constructor
    · rw [(hx rows' i hi' hbi').1, (hx rows i hi hbi).1, hmap, hbn']
    · rw [(hx rows' i hi' hbi').2, (hx rows i hi hbi).2,
        (hx rows' i hi' hbi').1, (hx rows i hi hbi).1, hmap, hbn']

/-- Two boreholes in sorted order; the second one starts at depth 10. -/
def c2demo : List Row :=
  [{ borehole_name := "A", start := 0, end_ := 2, material := "clay" },
   { borehole_name := "A", start := 2, end_ := 5, material := "sand" },
   { borehole_name := "B", start := 10, end_ := 12, material := "rock" }]

theorem c2_horizontal_witness :
    ((boreholes_coords c2demo 1 5 false true).get ⟨2, by decide⟩).x1 =
        (((uniqueFirst (c2demo.map Row.borehole_name)).indexOf
          (c2demo.get ⟨2, by decide⟩).borehole_name : ℕ) : ℚ) * (1 + 5) ∧
      ((boreholes_coords c2demo 1 5 false true).get ⟨2, by decide⟩).x2 =
        ((boreholes_coords c2demo 1 5 false true).get ⟨2, by decide⟩).x1 + 1 := by
  have hAB : ("A" : String) ≤ "B" := by
    rw [String.le_iff_toList_le]; decide
  have hs : c2demo.Pairwise (fun a b => a.borehole_name ≤ b.borehole_name) := by
    unfold c2demo
    refine List.Pairwise.cons ?_ (List.Pairwise.cons ?_ (List.pairwise_singleton _ _))
    · intro b hb
      rcases List.mem_cons.mp hb with rfl | hb
      · exact le_refl _
      · rcases List.mem_singleton.mp hb with rfl
        exact hAB
    · intro b hb
      rcases List.mem_singleton.mp hb with rfl
      exact hAB
  exact ⟨(c2_horizontal c2demo 1 5 false true hs 2 (by decide) (by decide)).1,
    (c2_horizontal c2demo 1 5 false true hs 2 (by decide) (by decide)).2.1⟩

/-- The sort comparison is total. -/
theorem rowLe_total (e : Bool) (a b : Row) : rowLe e a b || rowLe e b a := by
  rcases lt_trichotomy a.borehole_name b.borehole_name with hlt | heq | hgt
  · simp [rowLe, hlt]
  · rcases le_total a.start b.start with hs | hs <;>
      cases e <;> simp [rowLe, heq, hs, beq_iff_eq]
  · simp [rowLe, hgt]

/-- The sort comparison is transitive. -/
theorem rowLe_trans (e : Bool) (a b c : Row) :
    rowLe e a b → rowLe e b c → rowLe e a c := by
  intro hab hbc
  simp only [rowLe, Bool.or_eq_true, Bool.and_eq_true, decide_eq_true_eq,
    beq_iff_eq] at hab hbc ⊢
  rcases hab with hab | ⟨hab, habs⟩ <;> rcases hbc with hbc | ⟨hbc, hbcs⟩
  · exact Or.inl (lt_trans hab hbc)
  · exact Or.inl (hbc ▸ hab)
  · exact Or.inl (hab ▸ hbc)
  · refine Or.inr ⟨hab.trans hbc, ?_⟩
    cases e
    · simp only [if_false, Bool.false_eq_true, decide_eq_true_eq] at habs hbcs ⊢
      exact le_trans habs hbcs
    · simp only [if_true, decide_eq_true_eq] at habs hbcs ⊢
      exact le_trans hbcs habs

/-- Rows equal on both sort keys compare `rowLe` in both directions. -/
theorem rowLe_of_eq_keys (e : Bool) (a b : Row)
    (hbn : a.borehole_name = b.borehole_name) (hst : a.start = b.start) :
    rowLe e a b := by
  cases e <;> simp [rowLe, hbn, hst, beq_iff_eq]

/-- A pair of positions `i < j` of a list forms a two-element sublist. -/
theorem getElem_pair_sublist {α : Type} (l : List α) (i j : ℕ)
    (hi : i < l.length) (hj : j < l.length) (hij : i < j) :
    List.Sublist [l.get ⟨i, hi⟩, l.get ⟨j, hj⟩] l := by
  have hdj : j - (i + 1) < (l.drop (i + 1)).length := by
    rw [List.length_drop]; omega
  have hjd : (l.drop (i + 1)).get ⟨j - (i + 1), hdj⟩ = l.get ⟨j, hj⟩ := by
    simp only [List.get_eq_getElem, List.getElem_drop]
    congr 1
    omega
  have h1 : List.Sublist [l.get ⟨j, hj⟩] (l.drop (i + 1)) := by
    rw [← hjd]
    exact List.singleton_sublist.mpr (List.get_mem _ _ _)
  have h2 : List.Sublist [l.get ⟨i, hi⟩, l.get ⟨j, hj⟩]
      (l.get ⟨i, hi⟩ :: l.drop (i + 1)) := h1.cons₂ _
  have h3 : l.get ⟨i, hi⟩ :: l.drop (i + 1) = l.drop i := by
    simp only [List.get_eq_getElem]
    exact List.getElem_cons_drop l i hi
  exact (h3 ▸ h2).trans (List.drop_sublist i l)

/-- Unfolding of the sort comparison into the two-key lexicographic order. -/
theorem rowLe_eq_true_iff (e : Bool) (a b : Row) :
    rowLe e a b = true ↔
      (a.borehole_name < b.borehole_name ∨
        (a.borehole_name = b.borehole_name ∧
          (if e then b.start ≤ a.start else a.start ≤ b.start))) := by
  cases e <;> simp [rowLe, beq_iff_eq]

/-- C8. After sanitization the working set — already reduced to the four
required fields — is sorted by `borehole_name` ascending and then `start`
(ascending in depth mode, descending in elevation mode): the sorted set is
a permutation of the sanitized set, every pair respects the two-key order,
and the sort is stable — two rows with equal `(borehole_name, start)` keys
appear in the output in their original relative order (as a two-element
sublist in input order). -/
theorem c8_sorted_working_set (elevation : Bool) (raws : List RawRow) :
    List.Perm (sort_values elevation (sanitize raws).1) (sanitize raws).1 ∧
    (sort_values elevation (sanitize raws).1).Pairwise (fun a b =>
        a.borehole_name < b.borehole_name ∨
          (a.borehole_name = b.borehole_name ∧
            (if elevation then b.start ≤ a.start else a.start ≤ b.start))) ∧
    (∀ i j : ℕ, ∀ hi : i < (sanitize raws).1.length,
      ∀ hj : j < (sanitize raws).1.length, i < j →
        ((sanitize raws).1.get ⟨i, hi⟩).borehole_name =
            ((sanitize raws).1.get ⟨j, hj⟩).borehole_name →
        ((sanitize raws).1.get ⟨i, hi⟩).start =
            ((sanitize raws).1.get ⟨j, hj⟩).start →
          List.Sublist
            [(sanitize raws).1.get ⟨i, hi⟩, (sanitize raws).1.get ⟨j, hj⟩]
            (sort_values elevation (sanitize raws).1)) := by
  refine ⟨List.mergeSort_perm _ _, ?_, ?_⟩
  · have hsorted := List.sorted_mergeSort
      (fun a b c hab hbc => rowLe_trans elevation a b c hab hbc)
      (fun a b => rowLe_total elevation a b) (sanitize raws).1
    exact hsorted.imp (fun hab => (rowLe_eq_true_iff elevation _ _).mp hab)
  · intro i j hi hj hij hbn hst
    exact List.pair_sublist_mergeSort
      (fun a b c hab hbc => rowLe_trans elevation a b c hab hbc)
      (fun a b => rowLe_total elevation a b)
      (rowLe_of_eq_keys elevation _ _ hbn hst)
      (getElem_pair_sublist _ i j hi hj hij)

/-- Two raw rows with identical `(borehole_name, start)` keys and different
materials, to exhibit sort stability. -/
def c8raws : List RawRow :=
  [{ borehole_name := PyVal.str "A", start := PyVal.int 0,
     end_ := PyVal.int 2, material := PyVal.str "clay" },
   { borehole_name := PyVal.str "A", start := PyVal.int 0,
     end_ := PyVal.int 2, material := PyVal.str "silt" }]

theorem c8_sorted_working_set_witness :
    List.Sublist
      [(sanitize c8raws).1.get ⟨0, by decide⟩, (sanitize c8raws).1.get ⟨1, by decide⟩]
      (sort_values false (sanitize c8raws).1) :=
  (c8_sorted_working_set false c8raws).2.2 0 1 (by decide) (by decide)
    (by decide) (by decide) (by decide)

/-- A key present in an association list is found by `lookup`, and the
found pair is a member. -/
theorem lookup_of_mem_keys {β : Type} (l : List (String × β)) (m : String)
    (h : m ∈ l.map Prod.fst) : ∃ v, l.lookup m = some v ∧ (m, v) ∈ l := by
  induction l with
  | nil => simp at h
  | cons p t ih =>
      by_cases hk : m = p.1
      · have hb : (m == p.1) = true := beq_iff_eq.mpr hk
        refine ⟨p.2, ?_, ?_⟩
        · rw [List.lookup, hb]
        · subst hk
          exact List.mem_cons_self _ _
      · have hb : (m == p.1) = false := beq_eq_false_iff_ne.mpr hk
        have hm : m ∈ t.map Prod.fst := by
          rcases List.mem_cons.mp h with he | hm
          · exact absurd he hk
          · exact hm
        rcases ih hm with ⟨v, hv, hmem⟩
        refine ⟨v, ?_, List.mem_cons_of_mem _ hmem⟩
        rw [List.lookup, hb, hv]

/-- A color accepted by the validation step is a unit-interval triple. -/
theorem evalOneColor_isColorLike (resolveStr : String → Option (ℚ × ℚ × ℚ))
    (spec : ColorSpec) (c : ℚ × ℚ × ℚ)
    (h : evalOneColor resolveStr spec = some c) : isColorLike c = true := by
  cases spec with
  | rgb r g b =>
      rw [evalOneColor] at h
      by_cases hc : isColorLike (r / 255, g / 255, b / 255) = true
      · rw [if_pos hc] at h
        cases h
        exact hc
      · rw [if_neg hc] at h
        cases h
  | str s =>
      rw [evalOneColor] at h
      cases hr : resolveStr s with
      | none => rw [hr] at h; cases h
      | some c0 =>
          rw [hr] at h
          have h' : (if isColorLike c0 = true then some c0 else Option.none) =
              some c := h
          by_cases hc : isColorLike c0 = true
          · rw [if_pos hc] at h'
            cases h'
            exact hc
          · rw [if_neg hc] at h'
            cases h'

/-- Python `int` of a rational in `[0, 255]` stays in `[0, 255]`. -/
theorem pyInt_range (q : ℚ) (h0 : 0 ≤ q) (h1 : q ≤ 255) :
    0 ≤ pyInt q ∧ pyInt q ≤ 255 := by
  rw [pyInt, if_pos h0]
  constructor
  · exact Int.le_floor.mpr (by exact_mod_cast h0)
  · have h2 : (⌊q⌋ : ℚ) ≤ 255 := le_trans (Int.floor_le q) h1
    exact_mod_cast h2

/-- The RGB conversion of a unit-interval triple lands in `[0, 255]³`. -/
theorem rgbOut_range (c : ℚ × ℚ × ℚ) (h : isColorLike c = true) :
    0 ≤ (rgbOut c).1 ∧ (rgbOut c).1 ≤ 255 ∧
      0 ≤ (rgbOut c).2.1 ∧ (rgbOut c).2.1 ≤ 255 ∧
        0 ≤ (rgbOut c).2.2 ∧ (rgbOut c).2.2 ≤ 255 := by
  simp only [isColorLike, Bool.and_eq_true, decide_eq_true_eq] at h
  obtain ⟨⟨⟨h10, h11⟩, h20, h21⟩, h30, h31⟩ := h
  have b1 := pyInt_range ((c.1) * 255) (by positivity) (by nlinarith)
  have b2 := pyInt_range ((c.2.1) * 255) (by positivity) (by nlinarith)
  have b3 := pyInt_range ((c.2.2) * 255) (by positivity) (by nlinarith)
  exact ⟨b1.1, b1.2, b2.1, b2.2, b3.1, b3.2⟩

/-- A missing key or an invalid value anywhere in the pending materials
makes the loop return `(False, {})`, whatever has been accumulated. -/
theorem evaluateColorsAux_fail (resolveStr : String → Option (ℚ × ℚ × ℚ))
    (colors : List (String × ColorSpec)) :
    ∀ (ms : List String) (acc : List (String × (ℤ × ℤ × ℤ))),
      (∃ m ∈ ms, colors.lookup m = Option.none ∨
        ∃ spec, colors.lookup m = some spec ∧
          evalOneColor resolveStr spec = Option.none) →
      evaluateColorsAux resolveStr colors ms acc = (false, []) := by
  intro ms
  induction ms with
  | nil => intro acc hx; simp at hx
  | cons m rest ih =>
      intro acc hx
      cases hl : colors.lookup m with
      | none => simp only [evaluateColorsAux, hl]
      | some spec =>
          cases he : evalOneColor resolveStr spec with
          | none => simp only [evaluateColorsAux, hl, he]
          | some c =>
              simp only [evaluateColorsAux, hl, he]
              rcases hx with ⟨x, hxm, hxf⟩
              rcases List.mem_cons.mp hxm with rfl | hxm
              · rcases hxf with hnone | ⟨spec', hsp', hev'⟩
                · rw [hl] at hnone; cases hnone
                · rw [hl] at hsp'
                  cases hsp'
                  rw [he] at hev'
                  cases hev'
              · exact ih _ ⟨x, hxm, hxf⟩

/-- When every pending material has a valid color, the loop succeeds and
appends, in order, one converted entry per material. -/
theorem evaluateColorsAux_success (resolveStr : String → Option (ℚ × ℚ × ℚ))
    (colors : List (String × ColorSpec)) :
    ∀ (ms : List String) (acc : List (String × (ℤ × ℤ × ℤ))),
      (∀ m ∈ ms, ∃ spec c, colors.lookup m = some spec ∧
        evalOneColor resolveStr spec = some c) →
      ∃ rest, evaluateColorsAux resolveStr colors ms acc = (true, acc ++ rest) ∧
        (∀ m ∈ ms, m ∈ rest.map Prod.fst) ∧
        (∀ p ∈ rest, ∃ c, isColorLike c = true ∧ p.2 = rgbOut c) := by
  intro ms
  induction ms with
  | nil =>
      intro acc hall
      exact ⟨[], by simp [evaluateColorsAux], by simp, by simp⟩
  | cons m rest ih =>
      intro acc hall
      rcases hall m (List.mem_cons_self _ _) with ⟨spec, c, hl, he⟩
      rcases ih (acc ++ [(m, rgbOut c)])
          (fun x hx => hall x (List.mem_cons_of_mem _ hx)) with
        ⟨rest', heq, hkeys, hvals⟩
      refine ⟨(m, rgbOut c) :: rest', ?_, ?_, ?_⟩
      · simp only [evaluateColorsAux, hl, he]
        rw [heq, List.append_assoc]
        rfl
      · intro x hx
        rcases List.mem_cons.mp hx with rfl | hx
        · simp
        · simp only [List.map_cons, List.mem_cons]
          exact Or.inr (hkeys x hx)
      · intro p hp
        rcases List.mem_cons.mp hp with rfl | hp
        · exact ⟨c, evalOneColor_isColorLike resolveStr spec c he, rfl⟩
        · exact hvals p hp

/-- C3. `evaluate_colors` is all-or-nothing: if any distinct material of
the working set lacks a key in the user map or has a value that fails
color validation, the call returns `(ok = false, {})` — no partial map
survives; if every distinct material has a valid entry, it returns
`ok = true` with every material mapped to an RGB triple of integers in
`[0, 255]`.  Moreover an RGB tuple value passes validation exactly when
its three channels lie in `[0, 255]`. -/
theorem c3_all_or_nothing (resolveStr : String → Option (ℚ × ℚ × ℚ))
    (colors : List (String × ColorSpec)) (materials : List String) :
    ((∃ m ∈ uniqueFirst materials, colors.lookup m = Option.none ∨
        ∃ spec, colors.lookup m = some spec ∧
          evalOneColor resolveStr spec = Option.none) →
      evaluate_colors resolveStr colors materials = (false, [])) ∧
    ((∀ m ∈ uniqueFirst materials, ∃ spec c, colors.lookup m = some spec ∧
        evalOneColor resolveStr spec = some c) →
      (evaluate_colors resolveStr colors materials).1 = true ∧
      ∀ m ∈ uniqueFirst materials, ∃ v,
        (evaluate_colors resolveStr colors materials).2.lookup m = some v ∧
        0 ≤ v.1 ∧ v.1 ≤ 255 ∧ 0 ≤ v.2.1 ∧ v.2.1 ≤ 255 ∧
          0 ≤ v.2.2 ∧ v.2.2 ≤ 255) ∧
    (∀ r g b : ℚ,
        (∃ c, evalOneColor resolveStr (ColorSpec.rgb r g b) = some c) ↔
          (0 ≤ r ∧ r ≤ 255 ∧ 0 ≤ g ∧ g ≤ 255 ∧ 0 ≤ b ∧ b ≤ 255)) := by
  refine ⟨?_, ?_, ?_⟩
  · intro hx
    exact evaluateColorsAux_fail resolveStr colors (uniqueFirst materials) [] hx
  · intro hall
    rcases evaluateColorsAux_success resolveStr colors (uniqueFirst materials) []
      hall with ⟨rest, heq, hkeys, hvals⟩
    rw [evaluate_colors, heq]
    refine ⟨rfl, ?_⟩
    intro m hm
    rcases lookup_of_mem_keys rest m (by simpa using hkeys m hm) with ⟨v, hv, hmem⟩
    rcases hvals (m, v) hmem with ⟨c, hcl, hvc⟩
    have hrange := rgbOut_range c hcl
    exact ⟨v, by simpa using hv, by rw [show v = rgbOut c from hvc]; exact hrange.1,
      by rw [show v = rgbOut c from hvc]; exact hrange.2.1,
      by rw [show v = rgbOut c from hvc]; exact hrange.2.2.1,
      by rw [show v = rgbOut c from hvc]; exact hrange.2.2.2.1,
      by rw [show v = rgbOut c from hvc]; exact hrange.2.2.2.2.1,
      by rw [show v = rgbOut c from hvc]; exact hrange.2.2.2.2.2⟩
  · intro r g b
    constructor
    · rintro ⟨c, hc⟩
      have hcl := evalOneColor_isColorLike resolveStr (ColorSpec.rgb r g b) c hc
      have hc' : c = (r / 255, g / 255, b / 255) := by
        rw [evalOneColor] at hc
        by_cases hlike : isColorLike (r / 255, g / 255, b / 255) = true
        · rw [if_pos hlike] at hc
          cases hc
          rfl
        · rw [if_neg hlike] at hc
          cases hc
      subst hc'
      simp only [isColorLike, Bool.and_eq_true, decide_eq_true_eq] at hcl
      obtain ⟨⟨⟨h10, h11⟩, h20, h21⟩, h30, h31⟩ := hcl
      have h255 : (0 : ℚ) < 255 := by norm_num
      refine ⟨?_, ?_, ?_, ?_, ?_, ?_⟩
      · nlinarith
      · have := (div_le_one h255).mp h11
        linarith
      · nlinarith
      · have := (div_le_one h255).mp h21
        linarith
      · nlinarith
      · have := (div_le_one h255).mp h31
        linarith
    · rintro ⟨h10, h11, h20, h21, h30, h31⟩
      have h255 : (0 : ℚ) < 255 := by norm_num
      have hlike : isColorLike (r / 255, g / 255, b / 255) = true := by
        simp only [isColorLike, Bool.and_eq_true, decide_eq_true_eq]
        refine ⟨⟨⟨by positivity, ?_⟩, by positivity, ?_⟩, by positivity, ?_⟩ <;>
          rw [div_le_one h255] <;> assumption
      exact ⟨(r / 255, g / 255, b / 255), by rw [evalOneColor, if_pos hlike]⟩

/-- A color-string resolver with no resolvable names. -/
def demoResolve : String → Option (ℚ × ℚ × ℚ) := fun _ => Option.none

/-- A colormap table knowing only the default palette name. -/
def demoCmap : String → Option (ℚ → ℚ × ℚ × ℚ) :=
  fun n => if n = "Pastel1" then some (fun _ => (0, 0, 0)) else Option.none

/-- A user color map covering only the material `"clay"`. -/
def c3colors : List (String × ColorSpec) := [("clay", ColorSpec.rgb 255 255 255)]

theorem c3_all_or_nothing_witness :
    (∃ m ∈ uniqueFirst ["clay", "sand"], c3colors.lookup m = Option.none ∨
        ∃ spec, c3colors.lookup m = some spec ∧
          evalOneColor demoResolve spec = Option.none) ∧
      evaluate_colors demoResolve c3colors ["clay", "sand"] = (false, []) :=
  ⟨⟨"sand", by decide, Or.inl rfl⟩,
   (c3_all_or_nothing demoResolve c3colors ["clay", "sand"]).1
     ⟨"sand", by decide, Or.inl rfl⟩⟩

/-- C4 counterexample.  The claim says a non-mapping `colors` value (here
the string `"red"`) makes the call fail with a `ConfigError`; the code has
no such branch — `type(colors) == dict` is simply false, so resolution
silently falls back to the palette and the call SUCCEEDS, returning the
synthesized map. -/
theorem c4_nonmapping_counterexample :
    resolveColorsTop demoResolve demoCmap (ColorsArg.strA "red") "Pastel1" ["clay"] =
      Except.ok [("clay", (0, 0, 0))] := by
  show (if (false, ([] : List (String × (ℤ × ℤ × ℤ)))).1 = true
      then Except.ok (false, ([] : List (String × (ℤ × ℤ × ℤ)))).2
      else get_colors demoCmap "Pastel1" ["clay"]) = _
  rw [if_neg (by decide)]
  rw [get_colors]
  simp only [demoCmap, if_pos rfl]
  have hl : linspace01 (["clay"] : List String).length = [0] := by
    simp [linspace01]
  rw [hl]
  show Except.ok [("clay", rgbOut ((0 : ℚ), (0 : ℚ), (0 : ℚ)))] =
    Except.ok [("clay", ((0 : ℤ), (0 : ℤ), (0 : ℤ)))]
  have hrgb : rgbOut ((0 : ℚ), (0 : ℚ), (0 : ℚ)) = ((0 : ℤ), (0 : ℤ), (0 : ℤ)) := by
    simp [rgbOut, pyInt]
  rw [hrgb]

/-- C4 (amended). Top-level color resolution: when the caller supplies a
dict whose evaluation succeeds, its result is used; in every other case —
no `colors` at all, a dict whose evaluation fails, or a non-mapping value
such as a string or a list — resolution falls back to synthesizing from
the configured palette.  No error is raised on a non-mapping `colors`
value; it behaves exactly like an absent one. -/
theorem c4_amended_resolution (resolveStr : String → Option (ℚ × ℚ × ℚ))
    (cmap : String → Option (ℚ → ℚ × ℚ × ℚ)) (colors : ColorsArg)
    (colorscale : String) (materials : List String) :
    (∀ entries, colors = ColorsArg.dictA entries →
        (evaluate_colors resolveStr entries materials).1 = true →
        resolveColorsTop resolveStr cmap colors colorscale materials =
          Except.ok (evaluate_colors resolveStr entries materials).2) ∧
    ((∀ entries, colors = ColorsArg.dictA entries →
        (evaluate_colors resolveStr entries materials).1 = false) →
        resolveColorsTop resolveStr cmap colors colorscale materials =
          get_colors cmap colorscale materials) := by
  constructor
  · rintro entries rfl htrue
    simp [resolveColorsTop, htrue]
  · intro hfalse
    cases colors with
    | dictA entries => simp [resolveColorsTop, hfalse entries rfl]
    | noneA => simp [resolveColorsTop]
    | strA s => simp [resolveColorsTop]
    | listA l => simp [resolveColorsTop]

theorem c4_amended_resolution_witness :
    resolveColorsTop demoResolve demoCmap (ColorsArg.listA []) "Pastel1" ["clay"] =
      get_colors demoCmap "Pastel1" ["clay"] :=
  (c4_amended_resolution demoResolve demoCmap (ColorsArg.listA []) "Pastel1"
    ["clay"]).2 (fun _ h => nomatch h)
